import Mathlib

/-!
Verification of the `type_list` library (src/type_list.hpp): a compile-time
list of C++ types built from `type_list<First, Rest>` cons cells terminated
by `type_list<>`, with metafunctions `make`, `size`, `contains`, `equal`,
`transform` and `foldl`, and C++20 concept guards `is_type_list`,
`is_unary_operation` and `is_binary_operation`.

The embedding models C++ type identities as the inductive `Ty`.  A template
metafunction that can fail to instantiate (because a required nested member
type such as `T::first`, `T::rest` or `T::type` does not exist) is modelled
as a function into `Option`: `none` is a failed instantiation (a compile
error in C++), `some t` a successful one producing the type `t`.  Equality
of `Ty` values models `std::is_same_v`: exact type identity.
-/

namespace type_list

/-- A C++ type identity, as seen by the library.
`atom n` is an opaque type with no relevant nested member types;
`intConst n` is an `std::integral_constant`-like type whose nested `type`
member is itself; `wrapT t` is a type whose nested `type` member is `t`;
`nil` is `type_list<>`; `cons f r` is `type_list<First, Rest>` with
`first = f` and `rest = r` (the C++ template places no constraint on `r`,
so an arbitrary `Ty` may sit in the rest slot). -/
inductive Ty : Type where
  | atom : Nat → Ty
  | intConst : Nat → Ty
  | wrapT : Ty → Ty
  | nil : Ty
  | cons : Ty → Ty → Ty
deriving DecidableEq

/-- The nested member type `T::type`, when the C++ type `T` has one.
`std::integral_constant<..>::type` is the `integral_constant` itself;
a `wrapT t` exposes `t`; atoms and `type_list` instantiations have no
nested `type` member. -/
def typeMember : Ty → Option Ty
  | .intConst n => some (.intConst n)
  | .wrapT t => some t
  | _ => none

/-- A unary operation type: its member template `type<T>` maps an element
type to a result type, or fails to instantiate (`none`). -/
abbrev UnaryOp := Ty → Option Ty

/-- A binary operation type: its member template `type<A, B>` maps two
types to a result type, or fails to instantiate (`none`). -/
abbrev BinOp := Ty → Ty → Option Ty

/-- `make<Types...>::type` (src/type_list.hpp:82-93): `make<>` yields
`type_list<>`; `make<T, Ts...>` yields `type_list<T, make<Ts...>::type>`. -/
def make : List Ty → Ty
  | [] => .nil
  | t :: ts => .cons t (make ts)

/-- `size<TypeList>::value` (src/type_list.hpp:98-104): `0` for
`type_list<>`, otherwise `1 + size<TypeList::rest>::value`; a type with no
`rest` member fails to instantiate. -/
def size : Ty → Option Nat
  | .nil => some 0
  | .cons _ r => (size r).map (fun n => 1 + n)
  | _ => none

/-- `contains<TypeList, Element>::value` (src/type_list.hpp:113-119):
`false` for `type_list<>`, otherwise
`is_same_v<Element, TypeList::first> || contains<TypeList::rest, Element>`;
the recursive instantiation happens unconditionally. -/
def contains : Ty → Ty → Option Bool
  | .nil, _ => some false
  | .cons f r, e => (contains r e).map (fun b => decide (e = f) || b)
  | _, _ => none

/-- `equal<TypeList1, TypeList2>::value` (src/type_list.hpp:126-138):
the `<type_list<>, type_list<>>` specialization is `true`; the
`<TypeList1, type_list<>>` and `<type_list<>, TypeList2>` specializations
are `false`; the primary template compares `first` members and recurses on
the `rest` members. -/
def equal : Ty → Ty → Option Bool
  | .nil, .nil => some true
  | _, .nil => some false
  | .nil, _ => some false
  | .cons f1 r1, .cons f2 r2 =>
      (equal r1 r2).map (fun b => decide (f1 = f2) && b)
  | _, _ => none

/-- `UnaryOperation::template type<First>::type`: the unary operation
applied by `transform` to a list element (src/type_list.hpp:152) — the
operation's result is then unwrapped through its nested `type` member. -/
def applyUnary (op : UnaryOp) (t : Ty) : Option Ty :=
  (op t).bind typeMember

/-- `transform<TypeList, UnaryOperation>::type` (src/type_list.hpp:150-158):
`type_list<>` maps to `type_list<>`; a node maps to
`type_list<UnaryOperation::type<first>::type, transform<rest, Op>::type>`. -/
def transform (t : Ty) (op : UnaryOp) : Option Ty :=
  match t with
  | .nil => some .nil
  | .cons f r =>
      (applyUnary op f).bind fun h =>
        (transform r op).map fun rest => .cons h rest
  | _ => none

/-- `BinaryOperation::template type<First, Initial::type>`: the new
accumulator built by `foldl`'s recursive case (src/type_list.hpp:174-175) —
the old accumulator is unwrapped through its nested `type` member before
being handed to the operation. -/
def applyBinary (op : BinOp) (f init : Ty) : Option Ty :=
  (typeMember init).bind (op f)

/-- `foldl<TypeList, BinaryOperation, Initial>::type`
(src/type_list.hpp:171-180): for `type_list<>` the result is `Initial`
unchanged; for a node it is
`foldl<rest, Op, Op::type<first, Initial::type>>::type`. -/
def foldl (t : Ty) (op : BinOp) (init : Ty) : Option Ty :=
  match t with
  | .nil => some init
  | .cons f r =>
      match applyBinary op f init with
      | none => none
      | some newInit => foldl r op newInit
  | _ => none

/-- Concept `is_type_list` (src/type_list.hpp:41-46): `T` has nested
member types `first` and `rest`, or `T` is `type_list<>`. -/
def is_type_list : Ty → Bool
  | .cons _ _ => true
  | .nil => true
  | _ => false

/-- Concept `is_unary_operation` (src/type_list.hpp:48-52):
`UnaryOperation::template type<TypeList::first>` is well formed, or
`TypeList` is `type_list<>`. -/
def is_unary_operation (op : UnaryOp) (t : Ty) : Bool :=
  (match t with
   | .cons f _ => (op f).isSome
   | _ => false) || decide (t = .nil)

/-- Concept `is_binary_operation` (src/type_list.hpp:54-59):
`BinaryOperation::template type<InitialElement, TypeList::first>` is well
formed, or `TypeList` is `type_list<>`. -/
def is_binary_operation (op : BinOp) (t init : Ty) : Bool :=
  (match t with
   | .cons f _ => (op init f).isSome
   | _ => false) || decide (t = .nil)

/-- Requires-clause of `size` (src/type_list.hpp:99). -/
def size_guard (t : Ty) : Bool := is_type_list t

/-- Requires-clause of `contains` (src/type_list.hpp:114). -/
def contains_guard (t : Ty) : Bool := is_type_list t

/-- Requires-clause of `equal` (src/type_list.hpp:127). -/
def equal_guard (a b : Ty) : Bool := is_type_list a && is_type_list b

/-- Requires-clause of `transform` (src/type_list.hpp:148-149). -/
def transform_guard (t : Ty) (op : UnaryOp) : Bool :=
  is_type_list t && is_unary_operation op t

/-- Requires-clause of `foldl` (src/type_list.hpp:168-170). -/
def foldl_guard (t : Ty) (op : BinOp) (init : Ty) : Bool :=
  is_type_list t && is_binary_operation op t init

/-- Modelled from the spec: a "valid list shape" is `Empty` or a
well-formed node chain, i.e. every `rest` slot down the chain is itself a
valid list terminating in `Empty` (spec section 7, "Malformed-list error";
section 3, ListNode invariant). -/
def wellFormedList : Ty → Bool
  | .nil => true
  | .cons _ r => wellFormedList r
  | _ => false

/-- Elementwise instantiation of a metafunction over a list of types;
helper for reasoning about `transform` over `make`-built lists. -/
def mapOpt (f : Ty → Option Ty) : List Ty → Option (List Ty)
  | [] => some []
  | x :: xs => (f x).bind fun y => (mapOpt f xs).map fun ys => y :: ys

theorem size_make (ts : List Ty) : size (make ts) = some ts.length := by
  induction ts with
  | nil => rfl
  | cons t ts ih =>
      simp [make, size, ih, Nat.add_comm]

theorem contains_make (xs : List Ty) (e : Ty) :
    contains (make xs) e = some (decide (e ∈ xs)) := by
  induction xs with
  | nil => simp [make, contains]
  | cons x xs ih =>
      simp [make, contains, ih, List.mem_cons]

theorem equal_make (xs ys : List Ty) :
    equal (make xs) (make ys) = some (decide (xs = ys)) := by
  induction xs generalizing ys with
  | nil =>
      cases ys with
      | nil => simp [make, equal]
      | cons y ys => simp [make, equal]
  | cons x xs ih =>
      cases ys with
      | nil => simp [make, equal]
      | cons y ys =>
          simp [make, equal, ih, List.cons_eq_cons, Bool.decide_and]

theorem transform_make (xs : List Ty) (op : UnaryOp) :
    transform (make xs) op = (mapOpt (applyUnary op) xs).map make := by
  induction xs with
  | nil => simp [make, transform, mapOpt]
  | cons x xs ih =>
      simp only [make, transform, mapOpt, ih]
      cases applyUnary op x with
      | none => simp
      | some y =>
          simp only [Option.some_bind]
          cases mapOpt (applyUnary op) xs with
          | none => simp
          | some ys => simp [make]

theorem mapOpt_length (f : Ty → Option Ty) (xs ys : List Ty)
    (h : mapOpt f xs = some ys) : ys.length = xs.length := by
  induction xs generalizing ys with
  | nil =>
      simp only [mapOpt, Option.some.injEq] at h
      simp [← h]
  | cons x xs ih =>
      simp only [mapOpt] at h
      cases hx : f x with
      | none => simp [hx] at h
      | some y =>
          cases hm : mapOpt f xs with
          | none => simp [hx, hm] at h
          | some zs =>
              simp only [hx, hm, Option.some_bind, Option.map_some',
                Option.some.injEq] at h
              simp [← h, ih zs hm]

theorem mapOpt_get (f : Ty → Option Ty) (xs ys : List Ty)
    (h : mapOpt f xs = some ys) (i : Nat) (h1 : i < xs.length)
    (h2 : i < ys.length) : f (xs.get ⟨i, h1⟩) = some (ys.get ⟨i, h2⟩) := by
  induction xs generalizing ys i with
  | nil => simp at h1
  | cons x xs ih =>
      simp only [mapOpt] at h
      cases hx : f x with
      | none => simp [hx] at h
      | some y =>
          cases hm : mapOpt f xs with
          | none => simp [hx, hm] at h
          | some zs =>
              simp only [hx, hm, Option.some_bind, Option.map_some',
                Option.some.injEq] at h
              subst h
              cases i with
              | zero => simpa using hx
              | succ j =>
                  have hj1 : j < xs.length := by
                    simpa using h1
                  have hj2 : j < zs.length := by
                    simpa using h2
                  simpa using ih zs hm j hj1 hj2

theorem mapOpt_total (f : Ty → Option Ty) (xs : List Ty)
    (h : ∀ x ∈ xs, (f x).isSome) : ∃ ys, mapOpt f xs = some ys := by
  induction xs with
  | nil => exact ⟨[], rfl⟩
  | cons x xs ih =>
      obtain ⟨y, hy⟩ := Option.isSome_iff_exists.mp (h x (by simp))
      obtain ⟨ys, hys⟩ := ih (fun z hz => h z (by simp [hz]))
      exact ⟨y :: ys, by simp [mapOpt, hy, hys]⟩

/-- Claim C1: `make(T1,...,Tn)` yields a node chain of exactly `n` nodes in
argument order — `make()` is `Empty`, `make(T, Ts...)` is a node whose
`first` is `T` and whose `rest` is `make(Ts...)` — and
`size(make(T1,...,Tn)) = n`, in particular `size(make()) = 0`. -/
theorem make_builds_ordered_chain :
    make [] = Ty.nil ∧
    (∀ (t : Ty) (ts : List Ty), make (t :: ts) = Ty.cons t (make ts)) ∧
    (∀ ts : List Ty, size (make ts) = some ts.length) ∧
    size (make []) = some 0 :=
  ⟨rfl, fun _ _ => rfl, size_make, rfl⟩

/-- Claim C2: `transform(L, Op)` on a list built by `make` yields, whenever
the operation (as the code applies it: `Op::type<T>::type`) is defined on
every element, a list of the same length whose `i`-th element is the
operation applied to the `i`-th element of `L`, order preserved;
`transform(Empty, Op) = Empty`; and any successful result has the same
`size` as the input. -/
theorem transform_maps_elementwise :
    (∀ op : UnaryOp, transform Ty.nil op = some Ty.nil) ∧
    (∀ (xs : List Ty) (op : UnaryOp) (res : Ty),
       transform (make xs) op = some res → size res = size (make xs)) ∧
    (∀ (xs : List Ty) (op : UnaryOp),
       (∀ x ∈ xs, (applyUnary op x).isSome) →
       ∃ ys : List Ty,
         transform (make xs) op = some (make ys) ∧
         ys.length = xs.length ∧
         ∀ (i : Nat) (h1 : i < xs.length) (h2 : i < ys.length),
           applyUnary op (xs.get ⟨i, h1⟩) = some (ys.get ⟨i, h2⟩)) := by
  refine ⟨fun _ => rfl, ?_, ?_⟩
  · intro xs op res h
    rw [transform_make] at h
    cases hm : mapOpt (applyUnary op) xs with
    | none => simp [hm] at h
    | some ys =>
        simp only [hm, Option.map_some', Option.some.injEq] at h
        subst h
        rw [size_make, size_make, mapOpt_length (applyUnary op) xs ys hm]
  · intro xs op h
    obtain ⟨ys, hys⟩ := mapOpt_total (applyUnary op) xs h
    refine ⟨ys, ?_, mapOpt_length _ _ _ hys, mapOpt_get _ _ _ hys⟩
    rw [transform_make, hys, Option.map_some']

/-- Witness for C2 at a concrete list and operation. -/
theorem transform_maps_elementwise_witness :
    ∃ ys : List Ty,
      transform (make [Ty.atom 0, Ty.atom 1])
          (fun t => some (Ty.wrapT t)) = some (make ys) ∧
      ys.length = [Ty.atom 0, Ty.atom 1].length ∧
      ∀ (i : Nat) (h1 : i < [Ty.atom 0, Ty.atom 1].length)
        (h2 : i < ys.length),
        applyUnary (fun t => some (Ty.wrapT t))
            ([Ty.atom 0, Ty.atom 1].get ⟨i, h1⟩) = some (ys.get ⟨i, h2⟩) :=
  transform_maps_elementwise.2.2 [Ty.atom 0, Ty.atom 1]
    (fun t => some (Ty.wrapT t))
    (by intro x hx; simp [applyUnary, typeMember])

/-- Claim C3: `foldl` folds left to right and hands the binary operation
its arguments in the order (element, accumulator): the recursive case is
`foldl(node, Op, Init) = foldl(node.rest, Op, Op(node.first, Init))` with
the accumulator application as written in the code
(`Op::type<first, Initial::type>`), and consequently
`foldl(make(a,b,c), combine, init) = combine(c, combine(b, combine(a, init)))`
whenever the three successive applications are defined. -/
theorem foldl_left_to_right :
    (∀ (f r : Ty) (op : BinOp) (init : Ty),
       foldl (Ty.cons f r) op init =
         (applyBinary op f init).bind fun newInit => foldl r op newInit) ∧
    (∀ (a b c : Ty) (op : BinOp) (init x1 x2 x3 : Ty),
       applyBinary op a init = some x1 →
       applyBinary op b x1 = some x2 →
       applyBinary op c x2 = some x3 →
       foldl (make [a, b, c]) op init = some x3) := by
  constructor
  · intro f r op init
    show (match applyBinary op f init with
          | none => none
          | some newInit => foldl r op newInit) = _
    cases applyBinary op f init <;> rfl
  · intro a b c op init x1 x2 x3 h1 h2 h3
    show (match applyBinary op a init with
          | none => none
          | some newInit => foldl (make [b, c]) op newInit) = some x3
    rw [h1]
    show (match applyBinary op b x1 with
          | none => none
          | some newInit => foldl (make [c]) op newInit) = some x3
    rw [h2]
    show (match applyBinary op c x2 with
          | none => none
          | some newInit => foldl (make []) op newInit) = some x3
    rw [h3]
    rfl

/-- Witness for C3 at concrete elements, operation and accumulator. -/
theorem foldl_left_to_right_witness :
    applyBinary (fun e _ => some (Ty.wrapT e)) (Ty.atom 0)
        (Ty.intConst 0) = some (Ty.wrapT (Ty.atom 0)) ∧
    applyBinary (fun e _ => some (Ty.wrapT e)) (Ty.atom 1)
        (Ty.wrapT (Ty.atom 0)) = some (Ty.wrapT (Ty.atom 1)) ∧
    applyBinary (fun e _ => some (Ty.wrapT e)) (Ty.atom 2)
        (Ty.wrapT (Ty.atom 1)) = some (Ty.wrapT (Ty.atom 2)) ∧
    foldl (make [Ty.atom 0, Ty.atom 1, Ty.atom 2])
        (fun e _ => some (Ty.wrapT e)) (Ty.intConst 0) =
      some (Ty.wrapT (Ty.atom 2)) :=
  ⟨rfl, rfl, rfl,
   foldl_left_to_right.2 (Ty.atom 0) (Ty.atom 1) (Ty.atom 2)
     (fun e _ => some (Ty.wrapT e)) (Ty.intConst 0)
     (Ty.wrapT (Ty.atom 0)) (Ty.wrapT (Ty.atom 1)) (Ty.wrapT (Ty.atom 2))
     rfl rfl rfl⟩

/-- Claim C4: `equal(A, B)` is true exactly when the two lists have the
same length and identical elements at every position (equivalently, when
the element sequences coincide); `equal(Empty, Empty)` is true, `equal` of
`Empty` against a non-empty list is false in either argument position, and
`equal(L, L)` is true for every list. -/
theorem equal_iff_same_sequence :
    (∀ xs ys : List Ty,
       equal (make xs) (make ys) = some true ↔
         xs.length = ys.length ∧
         ∀ (i : Nat) (h1 : i < xs.length) (h2 : i < ys.length),
           xs.get ⟨i, h1⟩ = ys.get ⟨i, h2⟩) ∧
    equal Ty.nil Ty.nil = some true ∧
    (∀ (x : Ty) (xs : List Ty),
       equal Ty.nil (make (x :: xs)) = some false) ∧
    (∀ (x : Ty) (xs : List Ty),
       equal (make (x :: xs)) Ty.nil = some false) ∧
    (∀ xs : List Ty, equal (make xs) (make xs) = some true) := by
  refine ⟨?_, rfl, fun _ _ => rfl, fun _ _ => rfl, ?_⟩
  · intro xs ys
    rw [equal_make]
    constructor
    · intro h
      have hxy : xs = ys := by simpa using h
      subst hxy
      exact ⟨rfl, fun i h1 h2 => rfl⟩
    · intro ⟨hlen, hget⟩
      have hxy : xs = ys :=
        List.ext_get hlen fun i h1 h2 => hget i h1 h2
      simp [hxy]
  · intro xs
    rw [equal_make]
    simp

/-- Witness for C4 at a concrete pair of lists. -/
theorem equal_iff_same_sequence_witness :
    equal (make [Ty.atom 0, Ty.atom 1]) (make [Ty.atom 0, Ty.atom 1]) =
      some true :=
  (equal_iff_same_sequence.1 [Ty.atom 0, Ty.atom 1]
      [Ty.atom 0, Ty.atom 1]).mpr
    ⟨rfl, by decide⟩

/-- Claim C5: membership is decided by exact type identity: `contains`
reports `some (decide (e ∈ xs))` on a list built by `make`, so every
element at some position is reported present and every type not among the
elements is reported absent; `contains(Empty, E)` is false for every `E`. -/
theorem contains_iff_member :
    (∀ (xs : List Ty) (e : Ty),
       contains (make xs) e = some (decide (e ∈ xs))) ∧
    (∀ e : Ty, contains Ty.nil e = some false) ∧
    (∀ (xs : List Ty) (i : Nat) (h : i < xs.length),
       contains (make xs) (xs.get ⟨i, h⟩) = some true) ∧
    (∀ (xs : List Ty) (e : Ty), e ∉ xs →
       contains (make xs) e = some false) := by
  refine ⟨contains_make, fun _ => rfl, ?_, ?_⟩
  · intro xs i h
    rw [contains_make]
    simp [List.get_mem]
  · intro xs e he
    rw [contains_make]
    simp [he]

/-- Witness for C5 at a concrete list, a member and a non-member. -/
theorem contains_iff_member_witness :
    (0 : Nat) < [Ty.atom 0, Ty.atom 1].length ∧
    contains (make [Ty.atom 0, Ty.atom 1])
        ([Ty.atom 0, Ty.atom 1].get ⟨0, by decide⟩) = some true ∧
    Ty.atom 2 ∉ [Ty.atom 0, Ty.atom 1] ∧
    contains (make [Ty.atom 0, Ty.atom 1]) (Ty.atom 2) = some false :=
  ⟨by decide,
   contains_iff_member.2.2.1 [Ty.atom 0, Ty.atom 1] 0 (by decide),
   by decide,
   contains_iff_member.2.2.2 [Ty.atom 0, Ty.atom 1] (Ty.atom 2) (by decide)⟩

/-- Claim C6: folding the empty list returns the initial accumulator
unchanged, for every binary operation and every initial value:
`foldl(make(), Op, Init) = Init`. -/
theorem foldl_empty_identity :
    ∀ (op : BinOp) (init : Ty), foldl (make []) op init = some init :=
  fun _ _ => rfl

/-- Claim C7: `transform` places in each result node the nested `type`
member of the operation's raw result (`Op::type<first>::type`), not the raw
result itself; so the operation's result must expose a nested `type` member
for every element (a result without one makes the instantiation fail), and
the stored element coincides with the raw result exactly when that result
is its own `type` member, as an `std::integral_constant` is. -/
theorem transform_takes_nested_type_member :
    (∀ (op : UnaryOp) (f r : Ty),
       transform (Ty.cons f r) op =
         ((op f).bind typeMember).bind fun h =>
           (transform r op).map fun rest => Ty.cons h rest) ∧
    (∀ (op : UnaryOp) (f r m : Ty),
       op f = some m → typeMember m = none →
       transform (Ty.cons f r) op = none) ∧
    (∀ (op : UnaryOp) (f m : Ty),
       op f = some m →
       (applyUnary op f = some m ↔ typeMember m = some m)) ∧
    (∀ n : Nat, typeMember (Ty.intConst n) = some (Ty.intConst n)) := by
  refine ⟨fun _ _ _ => rfl, ?_, ?_, fun _ => rfl⟩
  · intro op f r m hm hnone
    show (applyUnary op f).bind _ = none
    simp [applyUnary, hm, hnone]
  · intro op f m hm
    simp [applyUnary, hm]

/-- Witness for C7: an operation whose raw result on `atom 0` is
`wrapT (atom 0)`, which has no own-`type` fixed point, so the transformed
element is the unwrapped `atom 0`, not the raw result. -/
theorem transform_takes_nested_type_member_witness :
    (fun t => some (Ty.wrapT t)) (Ty.atom 0) = some (Ty.wrapT (Ty.atom 0)) ∧
    (applyUnary (fun t => some (Ty.wrapT t)) (Ty.atom 0) =
        some (Ty.wrapT (Ty.atom 0)) ↔
      typeMember (Ty.wrapT (Ty.atom 0)) = some (Ty.wrapT (Ty.atom 0))) :=
  ⟨rfl,
   transform_takes_nested_type_member.2.2.1 (fun t => some (Ty.wrapT t))
     (Ty.atom 0) (Ty.wrapT (Ty.atom 0)) rfl⟩

/-- Claim C8: on a non-empty list, `foldl`'s recursive step hands the
operation `Initial::type` — the accumulator's nested `type` member — not
`Initial` itself, so `foldl(make(a), Op, Init) = Op(a, Init::type)` and an
accumulator without a nested `type` member makes the instantiation fail;
on the empty list the accumulator is returned as-is and needs no `type`
member. -/
theorem foldl_unwraps_accumulator :
    (∀ (op : BinOp) (a init acc res : Ty),
       typeMember init = some acc → op a acc = some res →
       foldl (Ty.cons a Ty.nil) op init = some res) ∧
    (∀ (op : BinOp) (a r init : Ty),
       typeMember init = none → foldl (Ty.cons a r) op init = none) ∧
    (∀ (op : BinOp) (init : Ty), foldl Ty.nil op init = some init) := by
  refine ⟨?_, ?_, fun _ _ => rfl⟩
  · intro op a init acc res hacc hres
    show (match applyBinary op a init with
          | none => none
          | some newInit => foldl Ty.nil op newInit) = some res
    simp [applyBinary, hacc, hres, foldl]
  · intro op a r init hnone
    show (match applyBinary op a init with
          | none => none
          | some newInit => foldl r op newInit) = none
    simp [applyBinary, hnone]

/-- Witness for C8: a singleton fold with an `integral_constant`-like
initial accumulator, and a failing fold whose accumulator (`atom 1`)
exposes no nested `type` member. -/
theorem foldl_unwraps_accumulator_witness :
    typeMember (Ty.intConst 3) = some (Ty.intConst 3) ∧
    (fun _ acc => some (Ty.wrapT acc)) (Ty.atom 0) (Ty.intConst 3) =
      some (Ty.wrapT (Ty.intConst 3)) ∧
    foldl (Ty.cons (Ty.atom 0) Ty.nil)
        (fun _ acc => some (Ty.wrapT acc)) (Ty.intConst 3) =
      some (Ty.wrapT (Ty.intConst 3)) ∧
    typeMember (Ty.atom 1) = none ∧
    foldl (Ty.cons (Ty.atom 0) Ty.nil)
        (fun _ acc => some (Ty.wrapT acc)) (Ty.atom 1) = none :=
  ⟨rfl, rfl,
   foldl_unwraps_accumulator.1 (fun _ acc => some (Ty.wrapT acc))
     (Ty.atom 0) (Ty.intConst 3) (Ty.intConst 3)
     (Ty.wrapT (Ty.intConst 3)) rfl rfl,
   rfl,
   foldl_unwraps_accumulator.2.1 (fun _ acc => some (Ty.wrapT acc))
     (Ty.atom 0) Ty.nil (Ty.atom 1) rfl⟩

/-- Counterexample to C9 as stated: the value
`type_list<atom 0, atom 1>` is not a valid list shape (its `rest` slot is
not a list), yet it passes `is_type_list` and hence `size`'s
requires-clause; `size` on it then fails inside the recursive
instantiation (`size<atom 1>`), not at the guarded call site. -/
theorem guard_misses_malformed_tail :
    is_type_list (Ty.cons (Ty.atom 0) (Ty.atom 1)) = true ∧
    wellFormedList (Ty.cons (Ty.atom 0) (Ty.atom 1)) = false ∧
    size_guard (Ty.cons (Ty.atom 0) (Ty.atom 1)) = true ∧
    size (Ty.cons (Ty.atom 0) (Ty.atom 1)) = none :=
  ⟨rfl, rfl, rfl, rfl⟩

/-- Claim C9 amended: every public operation guards each list parameter
with the `is_type_list` concept, which accepts exactly `Empty` and types
exposing `first`/`rest` members; a value that is neither is rejected by
the guard at the call. The check is shallow: every well-formed list passes
it, but so does any node, even one whose tail is malformed — such a
malformation is detected only at the deeper recursive instantiation whose
own parameter it becomes. -/
theorem guards_check_top_level_shape :
    (∀ t : Ty, size_guard t = is_type_list t) ∧
    (∀ t : Ty, contains_guard t = is_type_list t) ∧
    (∀ a b : Ty, equal_guard a b = (is_type_list a && is_type_list b)) ∧
    (∀ (t : Ty) (op : UnaryOp),
       transform_guard t op = (is_type_list t && is_unary_operation op t)) ∧
    (∀ (t : Ty) (op : BinOp) (init : Ty),
       foldl_guard t op init =
         (is_type_list t && is_binary_operation op t init)) ∧
    (∀ t : Ty,
       is_type_list t = true ↔ t = Ty.nil ∨ ∃ f r, t = Ty.cons f r) ∧
    (∀ t : Ty, wellFormedList t = true → is_type_list t = true) ∧
    (∀ f r : Ty, is_type_list (Ty.cons f r) = true) ∧
    (∀ n : Nat, is_type_list (Ty.atom n) = false) := by
  refine ⟨fun _ => rfl, fun _ => rfl, fun _ _ => rfl, fun _ _ => rfl,
    fun _ _ _ => rfl, ?_, ?_, fun _ _ => rfl, fun _ => rfl⟩
  · intro t
    cases t <;> simp [is_type_list]
  · intro t ht
    cases t <;> simp_all [wellFormedList, is_type_list]

/-- Witness for the amended C9 at concrete values. -/
theorem guards_check_top_level_shape_witness :
    wellFormedList (Ty.cons (Ty.atom 5) Ty.nil) = true ∧
    is_type_list (Ty.cons (Ty.atom 5) Ty.nil) = true :=
  ⟨rfl,
   guards_check_top_level_shape.2.2.2.2.2.2.1
     (Ty.cons (Ty.atom 5) Ty.nil) rfl⟩

/-- Claim C10: on the empty list the operation-capability concepts are
vacuously satisfied — any type at all, even one exposing no type-producing
mapping (modelled by the everywhere-failing operation), passes
`is_unary_operation` and `is_binary_operation` — and `transform` yields
`Empty` while `foldl` yields the initial accumulator, the operation never
being applied. -/
theorem empty_list_vacuous_ops :
    (∀ op : UnaryOp, is_unary_operation op Ty.nil = true) ∧
    (∀ (op : BinOp) (init : Ty), is_binary_operation op Ty.nil init = true) ∧
    (∀ op : UnaryOp, transform Ty.nil op = some Ty.nil) ∧
    (∀ (op : BinOp) (init : Ty), foldl Ty.nil op init = some init) ∧
    is_unary_operation (fun _ => none) Ty.nil = true ∧
    (∀ init : Ty, is_binary_operation (fun _ _ => none) Ty.nil init = true) :=
  ⟨fun _ => rfl, fun _ _ => rfl, fun _ => rfl, fun _ _ => rfl, rfl,
   fun _ => rfl⟩

end type_list
